import Mathlib

/-
Verification of the field-resolution and method-synthesis engine of the
dataclasses repository (primary implementation: src/dataclasses.py).

The development shallowly embeds the engine:

* Python values are the inductive PyValue (records, lists, tuples, dicts,
  sets, scalars); PyList / PyPairs / PyAttrs are bespoke list types so
  that all recursion over container values is plainly structural.
* Field descriptors (class Field of src/dataclasses.py) become FieldD;
  the sentinel value _MISSING becomes Option.none.
* The ordered field table built by _process_class with a
  collections.OrderedDict becomes an association list with the
  OrderedDict update rule (assignment to a present key keeps its
  position, a new key is appended): odInsert / odExtend / mergeTables.
* _get_field / _find_fields become getField / findFields, and
  _process_class becomes processClass, returning Except: a raised
  exception is an error value, mirroring that a raised error aborts the
  declaration before any method is installed.
* The synthesized __init__ (code built by _init_fn / _field_init /
  _field_assign) becomes runInit: positional parameter binding
  (bindParams), per-field initialization (runBody), and the
  frozen-aware store (fieldAssign / instSetattr / objectSetattr).
  A __post_init__ hook body is modelled as a list of attribute
  assignments performed through the instance's public setattr path,
  which is exactly what user hook code does.
* The synthesized __repr__ / __eq__ / __hash__ become reprRender,
  eqTuple-based comparison and hashInstance; the built-in hash is kept
  abstract (a parameter h : List PyValue → Int applied to the tuple of
  included field values, mirroring hash((self.f1,...,self.fn))).

Not modelled (not needed by any property below): the class-attribute
normalization side effect of _process_class (it rewrites cls.__dict__
but never the field table), _set_attribute's overwrite check (classes
are modelled without user-predefined methods), docstring generation,
and the metadata mapping carried by Field.
-/

namespace Dataclasses

/-! ### Python values -/

mutual

inductive PyValue where
  | vInt (n : Int)
  | vStr (s : String)
  | vBool (b : Bool)
  | vNone
  | vList (xs : PyList)
  | vTuple (xs : PyList)
  | vDict (es : PyPairs)
  | vSet (xs : PyList)
  | vRecord (cls : String) (attrs : PyAttrs)
  deriving DecidableEq

inductive PyList where
  | nil
  | cons (v : PyValue) (rest : PyList)
  deriving DecidableEq

inductive PyPairs where
  | nil
  | cons (k v : PyValue) (rest : PyPairs)
  deriving DecidableEq

inductive PyAttrs where
  | nil
  | cons (name : String) (v : PyValue) (rest : PyAttrs)
  deriving DecidableEq

end

/-! ### Ordered association tables (the OrderedDict of _process_class)

`fields[f.name] = f` on a `collections.OrderedDict` keeps the position of
an already-present key and appends a fresh key; `odInsert` is exactly that
update. -/

def odInsert {κ α : Type} [DecidableEq κ] : List (κ × α) → κ → α → List (κ × α)
  | [], k, v => [(k, v)]
  | p :: ps, k, v => if p.1 = k then (k, v) :: ps else p :: odInsert ps k v

def odKeys {κ α : Type} (t : List (κ × α)) : List κ :=
  t.map Prod.fst

def odLookup {κ α : Type} [DecidableEq κ] : List (κ × α) → κ → Option α
  | [], _ => none
  | p :: ps, k => if p.1 = k then some p.2 else odLookup ps k

def odExtend {κ α : Type} [DecidableEq κ] (t : List (κ × α)) (ps : List (κ × α)) :
    List (κ × α) :=
  ps.foldl (fun a p => odInsert a p.1 p.2) t

/-- The ancestor walk of _process_class: for each base-class field table
(least to most derived), write every entry into the working table. -/
def mergeTables {κ α : Type} [DecidableEq κ] (ts : List (List (κ × α))) :
    List (κ × α) :=
  ts.foldl odExtend []

/-- The keys a sequence of OrderedDict assignments appends to a table whose
key set is `seen`: first occurrences of keys not yet present, in order. -/
def newKeys {κ α : Type} [DecidableEq κ] (seen : List κ) : List (κ × α) → List κ
  | [] => []
  | p :: ps => if p.1 ∈ seen then newKeys seen ps else p.1 :: newKeys (p.1 :: seen) ps

/-- The value written by the last assignment to a key, if any. -/
def lastLookup {κ α : Type} [DecidableEq κ] : List (κ × α) → κ → Option α
  | [], _ => none
  | p :: ps, k =>
    match lastLookup ps k with
    | some v => some v
    | none => if p.1 = k then some p.2 else none

/-! ### Field descriptors (class Field / field() of src/dataclasses.py) -/

/-- The _field_type marker: _FIELD, _FIELD_CLASSVAR or _FIELD_INITVAR. -/
inductive FieldType where
  | tField
  | tClassVar
  | tInitVar
  deriving DecidableEq

/-- Zero-argument default factories. The three container constructors model
the typical list / set / dict factories; constF models any factory returning
a fixed value. -/
inductive FactorySpec where
  | mkList
  | mkSet
  | mkDict
  | constF (v : PyValue)
  deriving DecidableEq

def runFactory : FactorySpec → PyValue
  | .mkList => .vList .nil
  | .mkSet => .vSet .nil
  | .mkDict => .vDict .nil
  | .constF v => v

/-- A resolved Field object: name, default, default_factory, init, repr,
hash, compare and the private _field_type. The _MISSING sentinel of the
source is Option.none; Field.hash is tri-state exactly as in the source
(None / True / False). The declared type and the metadata mapping are
never interpreted by the engine and are omitted. -/
structure FieldD where
  name : String
  default : Option PyValue
  default_factory : Option FactorySpec
  init : Bool
  repr : Bool
  hash : Option Bool
  compare : Bool
  fieldType : FieldType
  deriving DecidableEq

def mkFieldD (name : String) (d : Option PyValue) (df : Option FactorySpec)
    (i rep : Bool) (h : Option Bool) (c : Bool) (ft : FieldType) : FieldD :=
  ⟨name, d, df, i, rep, h, c, ft⟩

/-- What the field() helper returns before _get_field fills in name and
_field_type: components default, default_factory, init, repr, hash,
compare. -/
structure FieldSpec where
  default : Option PyValue
  default_factory : Option FactorySpec
  init : Bool
  repr : Bool
  hash : Option Bool
  compare : Bool
  deriving DecidableEq

/-- Declaration-time errors raised by the engine (each a raised
ValueError / TypeError in the source). -/
inductive DCError where
  | bothDefaultAndFactory
  | factoryOnPseudoField (name : String)
  | mutableDefault (name : String)
  | orderWithoutEq
  | nonDefaultFollowsDefault (name : String)
  deriving DecidableEq

/-- The field() function: rejects a spec carrying both a default and a
default factory. -/
def fieldFn (d : Option PyValue) (df : Option FactorySpec) (i rep : Bool)
    (h : Option Bool) (c : Bool) : Except DCError FieldSpec :=
  if d.isSome && df.isSome then .error .bothDefaultAndFactory
  else .ok ⟨d, df, i, rep, h, c⟩

/-- The annotation attached to a declared attribute, as classified by
_get_field: an ordinary type, a typing.ClassVar, or an InitVar. -/
inductive Ann where
  | plain
  | classVarAnn
  | initVarAnn
  deriving DecidableEq

/-- getattr(cls, a_name, _MISSING): the class attribute backing a declared
field is a Field spec, a plain default value, or absent. -/
inductive ClassDefault where
  | specD (s : FieldSpec)
  | plainD (v : PyValue)
  | absentD
  deriving DecidableEq

/-- isinstance(v, (list, dict, set)) — the known-mutable default kinds. -/
def isMutableValue : PyValue → Bool
  | .vList _ => true
  | .vDict _ => true
  | .vSet _ => true
  | _ => false

/-- _get_field of src/dataclasses.py: wrap a plain default into a Field,
classify the field from its annotation, reject a default factory on a
ClassVar/InitVar pseudo-field and a known-mutable default on a real
field. -/
def getField (a_name : String) (a_ann : Ann) (cd : ClassDefault) : Except DCError FieldD :=
  let s : FieldSpec :=
    match cd with
    | .specD s => s
    | .plainD v => ⟨some v, none, true, true, none, true⟩
    | .absentD => ⟨none, none, true, true, none, true⟩
  let ft : FieldType :=
    match a_ann with
    | .plain => .tField
    | .classVarAnn => .tClassVar
    | .initVarAnn => .tInitVar
  let f : FieldD := ⟨a_name, s.default, s.default_factory, s.init, s.repr, s.hash, s.compare, ft⟩
  if (ft == FieldType.tClassVar || ft == FieldType.tInitVar) && f.default_factory.isSome then
    .error (.factoryOnPseudoField a_name)
  else if ft == FieldType.tField &&
      (match f.default with | some v => isMutableValue v | none => false) then
    .error (.mutableDefault a_name)
  else .ok f

/-- _find_fields: one getField per annotated attribute, in declaration
order; the first raised error aborts. -/
def findFields (decls : List (String × Ann × ClassDefault)) : Except DCError (List FieldD) :=
  decls.mapM fun d => getField d.1 d.2.1 d.2.2

/-! ### The resolved field table of _process_class -/

/-- The working OrderedDict after the ancestor walk and the own-field loop
of _process_class: ancestor tables written in reverse-MRO order, then the
class's own fields. -/
def classTable (ancestorTables : List (List (String × FieldD))) (ownFields : List FieldD) :
    List (String × FieldD) :=
  odExtend (mergeTables ancestorTables) (ownFields.map fun f => (f.name, f))

def markerOf (ancestorTables : List (List (String × FieldD))) (ownFields : List FieldD) :
    List FieldD :=
  (classTable ancestorTables ownFields).map Prod.snd

/-- field_list: the real fields of the table (no pseudo-fields). -/
def fieldListOf (marker : List FieldD) : List FieldD :=
  marker.filter fun f => f.fieldType == FieldType.tField

/-- The fields handed to _init_fn: real fields and InitVar pseudo-fields,
in table order. -/
def initFieldsOf (marker : List FieldD) : List FieldD :=
  marker.filter fun f => f.fieldType == FieldType.tField || f.fieldType == FieldType.tInitVar

/-- The ordering scan at the top of _init_fn: walking the init-eligible
fields in table order, report the first no-default field that follows a
defaulted one. -/
def orderCheckAux (seenDefault : Bool) : List FieldD → Option String
  | [] => none
  | f :: fs =>
    if f.init then
      if f.default.isSome || f.default_factory.isSome then orderCheckAux true fs
      else if seenDefault then some f.name
      else orderCheckAux seenDefault fs
    else orderCheckAux seenDefault fs

/-! ### Hash resolution and the processed class -/

/-- What _process_class does about __hash__. -/
inductive HashAction where
  | inheritHash
  | unhashable
  | synthesized (names : List String)
  deriving DecidableEq

/-- Per-field hash inclusion: f.compare if f.hash is None else f.hash. -/
def hashIncluded (f : FieldD) : Bool :=
  match f.hash with
  | none => f.compare
  | some b => b

def compareNames (fl : List FieldD) : List String :=
  (fl.filter FieldD.compare).map FieldD.name

def hashNames (fl : List FieldD) : List String :=
  (fl.filter hashIncluded).map FieldD.name

def reprNames (fl : List FieldD) : List String :=
  (fl.filter FieldD.repr).map FieldD.name

/-- The hash block of _process_class: the generate_hash computation plus
the None / pass branches, using the REQUESTED frozen flag (not the
inherited one), exactly as in the source. -/
def hashResolution (hashOpt : Option Bool) (eq frozen : Bool) (fl : List FieldD) : HashAction :=
  match hashOpt with
  | none =>
    if eq && frozen then .synthesized (hashNames fl)
    else if eq && !frozen then .unhashable
    else .inheritHash
  | some b => if b then .synthesized (hashNames fl) else .inheritHash

/-- A record type after _process_class: the attached field table
(__dataclass_fields__), the inherited-or-requested frozen status, and,
for each method family, the field-name lists the synthesized methods
close over (none when synthesis was not requested). -/
structure ProcessedClass where
  marker : List FieldD
  isFrozen : Bool
  hasInit : Bool
  initFields : List FieldD
  reprFieldNames : Option (List String)
  hashAction : HashAction
  eqFieldNames : Option (List String)
  ordFieldNames : Option (List String)
  deriving DecidableEq

/-- _process_class(cls, repr, eq, order, hash, init, frozen): find own
fields (validating each), merge ancestor tables then own fields into the
ordered table, reject order-without-eq, run the __init__ ordering scan
when init is requested, then resolve hashing and record the synthesized
method field lists. ancestorFrozen models `cls.__setattr__ is
_frozen_setattr` (an ancestor was frozen). Errors abort before any method
is installed. -/
def processClass (ancestorTables : List (List (String × FieldD)))
    (ownDecls : List (String × Ann × ClassDefault))
    (repr eq ord : Bool) (hashOpt : Option Bool)
    (init frozen ancestorFrozen : Bool) : Except DCError ProcessedClass :=
  match findFields ownDecls with
  | .error e => .error e
  | .ok ownFields =>
    let marker := markerOf ancestorTables ownFields
    let field_list := fieldListOf marker
    let is_frozen := frozen || ancestorFrozen
    if ord && !eq then .error .orderWithoutEq
    else
      match (if init then orderCheckAux false (initFieldsOf marker) else none) with
      | some n => .error (.nonDefaultFollowsDefault n)
      | none =>
        .ok ⟨marker, is_frozen, init,
             (if init then initFieldsOf marker else []),
             (if repr then some (reprNames field_list) else none),
             hashResolution hashOpt eq frozen field_list,
             (if eq then some (compareNames field_list) else none),
             (if ord then some (compareNames field_list) else none)⟩

def exceptIsOk {ε α : Type} : Except ε α → Bool
  | .ok _ => true
  | .error _ => false

/-! ### The synthesized constructor (code generated by _init_fn) -/

/-- Errors raised at run time by the synthesized methods. -/
inductive RTError where
  | frozenSetattr (name : String)
  | frozenDelattr (name : String)
  | missingArgument (name : String)
  | tooManyArguments
  | unboundName (name : String)
  | unhashableType
  | notADataclass
  deriving DecidableEq

/-- A bound __init__ parameter: an actual value, or the
_HAS_DEFAULT_FACTORY sentinel standing for an omitted
factory-defaulted parameter. -/
inductive Bound where
  | bval (v : PyValue)
  | hasDefaultFactory
  deriving DecidableEq

/-- Positional binding of the __init__ parameters (the init-participating
fields in table order, per _init_param): a supplied argument binds the
parameter; an exhausted argument list falls back to the default value or
the _HAS_DEFAULT_FACTORY sentinel; a parameter with neither raises the
missing-argument error of Python's own call binding. -/
def bindParams : List FieldD → List PyValue → Except RTError (List (String × Bound))
  | [], [] => .ok []
  | [], _ :: _ => .error .tooManyArguments
  | f :: fs, [] =>
    match f.default, f.default_factory with
    | some v, _ => (bindParams fs []).map fun r => (f.name, Bound.bval v) :: r
    | none, some _ => (bindParams fs []).map fun r => (f.name, Bound.hasDefaultFactory) :: r
    | none, none => .error (.missingArgument f.name)
  | f :: fs, a :: rest => (bindParams fs rest).map fun r => (f.name, Bound.bval a) :: r

/-- An instance's attribute dictionary. -/
abbrev Attrs : Type := List (String × PyValue)

/-- object.__setattr__: the privileged low-level store, never intercepted. -/
def objectSetattr (attrs : Attrs) (n : String) (v : PyValue) : Attrs :=
  odInsert attrs n v

/-- Attribute assignment through the instance's class: on a frozen class
this is _frozen_setattr, which unconditionally raises FrozenInstanceError
and touches nothing. -/
def instSetattr (clsFrozen : Bool) (attrs : Attrs) (n : String) (v : PyValue) :
    Except RTError Attrs :=
  if clsFrozen then .error (.frozenSetattr n) else .ok (odInsert attrs n v)

def odErase {κ α : Type} [DecidableEq κ] (t : List (κ × α)) (k : κ) : List (κ × α) :=
  t.filter fun p => !(p.1 == k)

/-- Attribute deletion through the instance's class: _frozen_delattr on a
frozen class. -/
def instDelattr (clsFrozen : Bool) (attrs : Attrs) (n : String) : Except RTError Attrs :=
  if clsFrozen then .error (.frozenDelattr n) else .ok (odErase attrs n)

/-- _field_assign: inside __init__, fields of a frozen class are stored via
object.__setattr__ (bypassing the interceptor); otherwise a plain
assignment. -/
def fieldAssign (frozen : Bool) (attrs : Attrs) (n : String) (v : PyValue) :
    Except RTError Attrs :=
  if frozen then .ok (objectSetattr attrs n v) else instSetattr false attrs n v

/-- The __init__ body lines generated by _field_init, one field at a time
in table order: a factory-defaulted init parameter is the factory result
when the sentinel was bound and the bound value otherwise; an init=False
field with a factory calls the factory; an init=False field without one
is skipped; InitVar pseudo-fields are bound but never stored. -/
def runBody (frozen : Bool) (bound : List (String × Bound)) :
    List FieldD → Attrs → Except RTError Attrs
  | [], attrs => .ok attrs
  | f :: fs, attrs =>
    let valOpt : Except RTError (Option PyValue) :=
      match f.default_factory with
      | some fac =>
        if f.init then
          match odLookup bound f.name with
          | some (Bound.bval v) => .ok (some v)
          | some Bound.hasDefaultFactory => .ok (some (runFactory fac))
          | none => .error (.unboundName f.name)
        else .ok (some (runFactory fac))
      | none =>
        if f.init then
          match odLookup bound f.name with
          | some (Bound.bval v) => .ok (some v)
          | some Bound.hasDefaultFactory => .error (.unboundName f.name)
          | none => .error (.unboundName f.name)
        else .ok none
    match valOpt with
    | .error e => .error e
    | .ok none => runBody frozen bound fs attrs
    | .ok (some v) =>
      if f.fieldType == FieldType.tInitVar then runBody frozen bound fs attrs
      else
        match fieldAssign frozen attrs f.name v with
        | .error e => .error e
        | .ok attrs2 => runBody frozen bound fs attrs2

/-- A __post_init__ hook body, modelled as the attribute assignments the
user's hook performs; hook code assigns through the instance's public
setattr path (the generated __init__ merely calls the hook — it grants it
no privileged store). -/
def runHook (clsFrozen : Bool) : List (String × PyValue) → Attrs → Except RTError Attrs
  | [], attrs => .ok attrs
  | (n, v) :: rest, attrs =>
    match instSetattr clsFrozen attrs n v with
    | .error e => .error e
    | .ok a2 => runHook clsFrozen rest a2

/-- The synthesized __init__: bind the positional arguments, run the body
lines over all init-relevant fields, then call the post-init hook if the
class has one. -/
def runInit (initFields : List FieldD) (clsFrozen : Bool)
    (hook : Option (List (String × PyValue))) (args : List PyValue) :
    Except RTError Attrs :=
  match bindParams (initFields.filter FieldD.init) args with
  | .error e => .error e
  | .ok bound =>
    match runBody clsFrozen bound initFields [] with
    | .error e => .error e
    | .ok attrs =>
      match hook with
      | none => .ok attrs
      | some hs => runHook clsFrozen hs attrs

/-! ### The synthesized __repr__, __eq__ and __hash__ -/

/-- Python repr() for the scalar values the synthesized __repr__ renders in
this development. Container rendering is the collaborator's debug
formatting and is not specified; a placeholder is returned for it. -/
def pyReprStr : PyValue → String
  | .vInt n => toString n
  | .vStr s => String.append (String.append "'" s) "'"
  | .vBool b => if b then "True" else "False"
  | .vNone => "None"
  | _ => "<container>"

/-- The string built by the function _repr_fn generates:
TypeName(f1=v1, f2=v2, ...) over the repr-participating fields in table
order. -/
def reprRender (clsName : String) (names : List String) (attrs : Attrs) : String :=
  String.append clsName
    (String.append "("
      (String.append
        (String.intercalate ", "
          (names.map fun n =>
            String.append n (String.append "=" (pyReprStr ((odLookup attrs n).getD PyValue.vNone)))))
        ")"))

/-- The tuple of attribute values for a list of field names — the
(self.f1,...,self.fn) tuple the synthesized comparison and hash functions
build. -/
def fieldTuple (names : List String) (attrs : Attrs) : List PyValue :=
  names.map fun n => (odLookup attrs n).getD PyValue.vNone

/-- The synthesized __eq__ between two instances of the same record type:
equality of the compare-field tuples. -/
def synthEq (comparedNames : List String) (a b : Attrs) : Bool :=
  fieldTuple comparedNames a == fieldTuple comparedNames b

/-- hash(instance) under the resolved hash action: with __hash__ = None the
type is unhashable (a TypeError); a synthesized __hash__ returns
hash(tuple-of-included-fields), with the built-in hash kept abstract as h;
when nothing was installed the inherited hash (object identity hash) is
returned. -/
def hashInstance (act : HashAction) (attrs : Attrs) (h : List PyValue → Int)
    (inheritedHashVal : Int) : Except RTError Int :=
  match act with
  | .inheritHash => .ok inheritedHashVal
  | .unhashable => .error .unhashableType
  | .synthesized ns => .ok (h (fieldTuple ns attrs))

/-! ### asdict and reconstruction (the structural conversion helpers) -/

mutual

/-- _asdict_inner with dict_factory = dict: record instances become dicts
keyed by field name, lists/tuples and dicts are rebuilt recursively, and
leaves are deep-copied (value-identical). -/
def asdictInner : PyValue → PyValue
  | .vInt n => .vInt n
  | .vStr s => .vStr s
  | .vBool b => .vBool b
  | .vNone => .vNone
  | .vList xs => .vList (asdictList xs)
  | .vTuple xs => .vTuple (asdictList xs)
  | .vDict es => .vDict (asdictPairs es)
  | .vSet xs => .vSet xs
  | .vRecord _ attrs => .vDict (asdictAttrs attrs)

def asdictList : PyList → PyList
  | .nil => .nil
  | .cons v rest => .cons (asdictInner v) (asdictList rest)

def asdictPairs : PyPairs → PyPairs
  | .nil => .nil
  | .cons k v rest => .cons (asdictInner k) (asdictInner v) (asdictPairs rest)

def asdictAttrs : PyAttrs → PyPairs
  | .nil => .nil
  | .cons n v rest => .cons (.vStr n) (asdictInner v) (asdictAttrs rest)

end

def isdataclassV : PyValue → Bool
  | .vRecord _ _ => true
  | _ => false

/-- asdict(): rejects non-instances, otherwise converts recursively. -/
def asdict (v : PyValue) : Except RTError PyValue :=
  if isdataclassV v then .ok (asdictInner v) else .error .notADataclass

def attrNames : PyAttrs → List String
  | .nil => []
  | .cons n _ rest => n :: attrNames rest

def pairsValues : PyPairs → List PyValue
  | .nil => []
  | .cons _ v rest => v :: pairsValues rest

def zipAttrs : List String → List PyValue → PyAttrs
  | n :: ns, v :: vs => .cons n v (zipAttrs ns vs)
  | _, _ => .nil

/-- Building a new instance of the same record type from a mapping's values
taken in field order: the constructor of a record whose fields all
participate in __init__ stores the given values under the field names. -/
def reconstructFromDict (cls : String) (names : List String) : PyValue → Option PyValue
  | .vDict es => some (.vRecord cls (zipAttrs names (pairsValues es)))
  | _ => none

mutual

/-- True when a value contains no record instance anywhere. -/
def recordFree : PyValue → Bool
  | .vInt _ => true
  | .vStr _ => true
  | .vBool _ => true
  | .vNone => true
  | .vList xs => recordFreeL xs
  | .vTuple xs => recordFreeL xs
  | .vDict es => recordFreeP es
  | .vSet xs => recordFreeL xs
  | .vRecord _ _ => false

def recordFreeL : PyList → Bool
  | .nil => true
  | .cons v rest => recordFree v && recordFreeL rest

def recordFreeP : PyPairs → Bool
  | .nil => true
  | .cons k v rest => recordFree k && recordFree v && recordFreeP rest

end

def recordFreeA : PyAttrs → Bool
  | .nil => true
  | .cons _ v rest => recordFree v && recordFreeA rest

/-! ### Per-construction factory invocation (aliasing model)

The generated __init__ evaluates `_dflt_f()` once per constructed instance
when a factory-defaulted parameter is omitted (_field_init). Each factory
invocation of a container factory allocates a fresh object; the model
hands out fresh identities from a counter, and a heap of container
contents keyed by identity shows mutating one instance's container leaves
the other's untouched. -/

def factoryFreshId (ctr : Nat) : Nat × Nat :=
  (ctr, ctr + 1)

/-- The container identities two successive no-argument constructions
receive for a factory-defaulted field. -/
def constructTwiceIds (ctr : Nat) : Nat × Nat :=
  ((factoryFreshId ctr).1, (factoryFreshId (factoryFreshId ctr).2).1)

/-- Appending an element to the container with the given identity. -/
def heapAppend (h : List (Nat × List PyValue)) (i : Nat) (v : PyValue) :
    List (Nat × List PyValue) :=
  h.map fun e => if e.1 = i then (e.1, e.2 ++ [v]) else e

/-! ### Concrete fields, declarations and instances used by the claims -/

/-- Field x with no default — the descriptor resolved for an annotated
attribute with no class default. -/
def fldX : FieldD := mkFieldD "x" none none true true none true .tField

/-- Field y with plain default 0. -/
def fldY0 : FieldD := mkFieldD "y" (some (.vInt 0)) none true true none true .tField

/-- Field x with plain default 0. -/
def fldX0 : FieldD := mkFieldD "x" (some (.vInt 0)) none true true none true .tField

/-- Declarations of a class with x: int = 0 followed by y: int (no
default). -/
def declsXdefThenY : List (String × Ann × ClassDefault) :=
  [("x", .plain, .plainD (.vInt 0)), ("y", .plain, .absentD)]

/-- Declarations of the C8 scenario class: x: int (no default), y: int = 0. -/
def c8Decls : List (String × Ann × ClassDefault) :=
  [("x", .plain, .absentD), ("y", .plain, .plainD (.vInt 0))]

def c8Marker : List FieldD := [fldX, fldY0]

def c8Attrs : Attrs := [("x", .vInt 3), ("y", .vInt 0)]

def innerRec : PyValue := .vRecord "Inner" (.cons "x" (.vInt 1) .nil)

def outerRec : PyValue := .vRecord "Outer" (.cons "a" innerRec .nil)

def c4FldA : FieldD := mkFieldD "a" none none true true none true .tField

/-- Field b overriding hash inclusion (hash=True) while opting out of
comparison (compare=False). -/
def c4FldB : FieldD := mkFieldD "b" none none true true (some true) false .tField

def c4Decls : List (String × Ann × ClassDefault) :=
  [("a", .plain, .specD ⟨none, none, true, true, none, true⟩),
   ("b", .plain, .specD ⟨none, none, true, true, some true, false⟩)]

def c4P : Attrs := [("a", .vInt 0), ("b", .vInt 0)]

def c4Q : Attrs := [("a", .vInt 0), ("b", .vInt 1)]

/-- The value the generated __init__ stores for a field given its bound
parameter: the bound value, or the factory result when the
_HAS_DEFAULT_FACTORY sentinel was bound. -/
def resolvedOf (f : FieldD) (b : Bound) : PyValue :=
  match b with
  | .bval v => v
  | .hasDefaultFactory =>
    match f.default_factory with
    | some fac => runFactory fac
    | none => .vNone

/-- Declarations of a frozen one-field class x: int. -/
def c5Decls : List (String × Ann × ClassDefault) := [("x", .plain, .absentD)]

/-! ### Lemmas about ordered tables -/

theorem odKeys_odInsert {κ α : Type} [DecidableEq κ] (t : List (κ × α)) (k : κ) (v : α) :
    odKeys (odInsert t k v) = if k ∈ odKeys t then odKeys t else odKeys t ++ [k] := by
  induction t with
  | nil => simp [odInsert, odKeys]
  | cons p ps ih =>
    by_cases h : p.1 = k
    · have hstep : odInsert (p :: ps) k v = (k, v) :: ps := by simp [odInsert, h]
      have hm : k ∈ odKeys (p :: ps) := by
        unfold odKeys
        simp only [List.map_cons, List.mem_cons]
        exact Or.inl h.symm
      rw [hstep, if_pos hm]
      show k :: odKeys ps = p.1 :: odKeys ps
      rw [h]
    · have hstep : odInsert (p :: ps) k v = p :: odInsert ps k v := by simp [odInsert, h]
      rw [hstep]
      show p.1 :: odKeys (odInsert ps k v) = _
      rw [ih]
      by_cases hm : k ∈ odKeys ps
      · have hm2 : k ∈ odKeys (p :: ps) := by
          unfold odKeys
          simp only [List.map_cons, List.mem_cons]
          exact Or.inr hm
        rw [if_pos hm, if_pos hm2]
        rfl
      · have hm2 : k ∉ odKeys (p :: ps) := by
          unfold odKeys
          simp only [List.map_cons, List.mem_cons]
          intro hk
          rcases hk with hk | hk
          · exact h hk.symm
          · exact hm hk
        rw [if_neg hm, if_neg hm2]
        rfl

theorem odLookup_odInsert {κ α : Type} [DecidableEq κ] (t : List (κ × α)) (k k' : κ) (v : α) :
    odLookup (odInsert t k v) k' = if k = k' then some v else odLookup t k' := by
  induction t with
  | nil => rfl
  | cons p ps ih =>
    by_cases h : p.1 = k
    · have hstep : odInsert (p :: ps) k v = (k, v) :: ps := by simp [odInsert, h]
      rw [hstep]
      show (if k = k' then some v else odLookup ps k') = _
      by_cases h2 : k = k'
      · rw [if_pos h2, if_pos h2]
      · rw [if_neg h2, if_neg h2]
        have hne : ¬p.1 = k' := by rw [h]; exact h2
        show odLookup ps k' = if p.1 = k' then some p.2 else odLookup ps k'
        rw [if_neg hne]
    · have hstep : odInsert (p :: ps) k v = p :: odInsert ps k v := by simp [odInsert, h]
      rw [hstep]
      show (if p.1 = k' then some p.2 else odLookup (odInsert ps k v) k') = _
      by_cases h2 : p.1 = k'
      · have h3 : ¬k = k' := by rw [← h2]; exact fun hk => h hk.symm
        rw [if_pos h2, if_neg h3]
        show some p.2 = if p.1 = k' then some p.2 else odLookup ps k'
        rw [if_pos h2]
      · rw [if_neg h2, ih]
        by_cases h3 : k = k'
        · rw [if_pos h3, if_pos h3]
        · rw [if_neg h3, if_neg h3]
          show odLookup ps k' = if p.1 = k' then some p.2 else odLookup ps k'
          rw [if_neg h2]

theorem odExtend_append {κ α : Type} [DecidableEq κ] (t ps qs : List (κ × α)) :
    odExtend t (ps ++ qs) = odExtend (odExtend t ps) qs := by
  simp [odExtend, List.foldl_append]

theorem mergeTables_eq_flatten {κ α : Type} [DecidableEq κ] (ts : List (List (κ × α))) :
    mergeTables ts = odExtend [] ts.flatten := by
  suffices h : ∀ (a : List (κ × α)), ts.foldl odExtend a = odExtend a ts.flatten by
    exact h []
  induction ts with
  | nil => intro a; simp [odExtend]
  | cons t ts ih =>
    intro a
    rw [List.foldl_cons, ih, List.flatten_cons, odExtend_append]

theorem newKeys_congr {κ α : Type} [DecidableEq κ] (s₁ s₂ : List κ)
    (h : ∀ x, x ∈ s₁ ↔ x ∈ s₂) (ps : List (κ × α)) :
    newKeys s₁ ps = newKeys s₂ ps := by
  induction ps generalizing s₁ s₂ with
  | nil => rfl
  | cons p ps ih =>
    by_cases hm : p.1 ∈ s₁
    · have hm2 : p.1 ∈ s₂ := (h p.1).mp hm
      simp [newKeys, hm, hm2, ih s₁ s₂ h]
    · have hm2 : p.1 ∉ s₂ := fun hx => hm ((h p.1).mpr hx)
      have h' : ∀ x, x ∈ p.1 :: s₁ ↔ x ∈ p.1 :: s₂ := by
        intro x; simp [List.mem_cons, h x]
      simp [newKeys, hm, hm2, ih (p.1 :: s₁) (p.1 :: s₂) h']

theorem odKeys_odExtend {κ α : Type} [DecidableEq κ] (t ps : List (κ × α)) :
    odKeys (odExtend t ps) = odKeys t ++ newKeys (odKeys t) ps := by
  induction ps generalizing t with
  | nil => simp [odExtend, newKeys]
  | cons p ps ih =>
    have step : odExtend t (p :: ps) = odExtend (odInsert t p.1 p.2) ps := by
      simp [odExtend]
    rw [step, ih]
    by_cases hm : p.1 ∈ odKeys t
    · rw [odKeys_odInsert]
      simp only [hm, if_true]
      have : newKeys (odKeys t) (p :: ps) = newKeys (α := α) (odKeys t) ps := by
        simp [newKeys, hm]
      rw [this]
    · rw [odKeys_odInsert]
      simp only [hm, if_false]
      have hcongr : newKeys (α := α) (odKeys t ++ [p.1]) ps
          = newKeys (p.1 :: odKeys t) ps := by
        apply newKeys_congr
        intro x
        simp [List.mem_append, List.mem_cons, or_comm]
      rw [hcongr]
      have : newKeys (odKeys t) (p :: ps) = p.1 :: newKeys (α := α) (p.1 :: odKeys t) ps := by
        simp [newKeys, hm]
      rw [this, List.append_assoc]
      rfl

theorem odLookup_odExtend {κ α : Type} [DecidableEq κ] (t ps : List (κ × α)) (k : κ) :
    odLookup (odExtend t ps) k =
      match lastLookup ps k with
      | some v => some v
      | none => odLookup t k := by
  induction ps generalizing t with
  | nil => simp [odExtend, lastLookup]
  | cons p ps ih =>
    have step : odExtend t (p :: ps) = odExtend (odInsert t p.1 p.2) ps := by
      simp [odExtend]
    rw [step, ih]
    cases hl : lastLookup ps k with
    | some v => simp [lastLookup, hl]
    | none =>
      rw [odLookup_odInsert]
      by_cases h : p.1 = k
      · simp [lastLookup, hl, h]
      · simp [lastLookup, hl, h]

/-! ### Claim theorems -/

theorem classTable_eq_flatten (anc : List (List (String × FieldD))) (own : List FieldD) :
    classTable anc own = odExtend [] (anc.flatten ++ own.map fun f => (f.name, f)) := by
  rw [classTable, mergeTables_eq_flatten, ← odExtend_append]

/-- C1: for a record type whose ancestors were already processed, the
resolved field table's key order is: the inherited order (the merged
ancestor tables) first, with the names newly introduced by the current
type appended afterwards in their own declaration order (first conjunct);
that key order depends only on the position of each name's FIRST
declaration across the flattened ancestry followed by the current type —
so it is independent of which ancestor most recently re-declared a name
(second conjunct); and the descriptor stored under each name is the one
from the LAST (most derived) declaration of that name (third conjunct). -/
theorem c1_resolved_table_order (anc : List (List (String × FieldD))) (own : List FieldD) :
    (odKeys (classTable anc own)
        = odKeys (mergeTables anc)
            ++ newKeys (odKeys (mergeTables anc)) (own.map fun f => (f.name, f)))
    ∧ (odKeys (classTable anc own)
        = newKeys [] (anc.flatten ++ own.map fun f => (f.name, f)))
    ∧ (∀ k, odLookup (classTable anc own) k
        = lastLookup (anc.flatten ++ own.map fun f => (f.name, f)) k) := by
  refine ⟨?_, ?_, ?_⟩
  · rw [classTable, odKeys_odExtend]
  · rw [classTable_eq_flatten, odKeys_odExtend]
    rfl
  · intro k
    rw [classTable_eq_flatten, odLookup_odExtend]
    cases hl : lastLookup (anc.flatten ++ own.map fun f => (f.name, f)) k with
    | some v => rfl
    | none => rfl

/-- C2 (counterexample): the ordering violation is NOT raised independent
of the policy options — with init=False the very class the claim says must
fail (x with a default followed by init-participating y without one) is
processed successfully, because the scan lives in _init_fn, which
_process_class only calls when init is requested. -/
theorem c2_counterexample_init_false :
    exceptIsOk (processClass [] declsXdefThenY true true false none false false false) = true := by
  rfl

/-- C2 (amended): provided field resolution succeeded, the policy does not
request order without eq, and init IS requested, a class whose
init-participating fields contain a defaulted field followed by a
no-default one fails with the non-default-follows-default TypeError naming
the first offending field, before any method is installed and regardless
of the remaining policy options (repr, hash, frozen). -/
theorem c2_field_order_error (anc : List (List (String × FieldD)))
    (ownDecls : List (String × Ann × ClassDefault)) (ownFields : List FieldD)
    (repr eq ord : Bool) (hashOpt : Option Bool) (frozen ancestorFrozen : Bool) (n : String)
    (hres : findFields ownDecls = .ok ownFields)
    (hpol : ord = false ∨ eq = true)
    (hscan : orderCheckAux false (initFieldsOf (markerOf anc ownFields)) = some n) :
    processClass anc ownDecls repr eq ord hashOpt true frozen ancestorFrozen
      = .error (.nonDefaultFollowsDefault n) := by
  have hcond : (ord && !eq) = false := by
    rcases hpol with h | h <;> simp [h]
  simp only [processClass, hres, hcond, Bool.false_eq_true, if_false, if_true, hscan]

/-- C2 witness: the amended theorem applied to the concrete class
x: int = 0; y: int under the default policy with init requested. -/
theorem c2_field_order_error_witness :
    processClass [] declsXdefThenY true true false none true false false
      = .error (.nonDefaultFollowsDefault "y") :=
  c2_field_order_error [] declsXdefThenY [fldX0, mkFieldD "y" none none true true none true .tField]
    true true false none false false "y" (by rfl) (Or.inl rfl) (by rfl)

/-- C7: the claim (and the repository's own test suite, tst.py
test_not_in_init) requires a TypeError for a field with init=False and
neither default nor default factory; src/dataclasses.py raises nothing —
the declaration succeeds (first conjunct) and the synthesized __init__
simply never initializes the field, leaving the instance without it
(second conjunct). -/
theorem c7_missing_default_not_raised :
    exceptIsOk (processClass [] [("x", .plain, .specD ⟨none, none, false, true, none, true⟩)]
        true true false none true false false) = true
    ∧ runInit [mkFieldD "x" none none false true none true .tField] false none [] = .ok [] := by
  constructor
  · rfl
  · rfl

/-- C10 (counterexample): for a class whose field list itself fails
validation (x with the mutable default []), a declaration requesting
order without eq fails with the mutable-default ValueError, not with the
eq-must-be-true ValueError — _find_fields runs before the order/eq
check. -/
theorem c10_counterexample_mutable_first :
    processClass [] [("x", .plain, .plainD (.vList .nil))] true false true none true false false
      = .error (.mutableDefault "x")
    ∧ DCError.mutableDefault "x" ≠ DCError.orderWithoutEq := by
  constructor
  · rfl
  · decide

/-- C10 (amended): provided field resolution succeeds, every declaration
processed with order = true and eq = false fails with the ValueError
stating that eq must be true if order is true; the error aborts
processing before any ordering method is installed. -/
theorem c10_order_requires_eq (anc : List (List (String × FieldD)))
    (ownDecls : List (String × Ann × ClassDefault)) (ownFields : List FieldD)
    (repr : Bool) (hashOpt : Option Bool) (init frozen ancestorFrozen : Bool)
    (hres : findFields ownDecls = .ok ownFields) :
    processClass anc ownDecls repr false true hashOpt init frozen ancestorFrozen
      = .error .orderWithoutEq := by
  simp only [processClass, hres]
  rfl

/-- C10 witness: the amended theorem at a concrete one-field class. -/
theorem c10_order_requires_eq_witness :
    processClass [] [("x", .plain, .absentD)] true false true none true false false
      = .error .orderWithoutEq :=
  c10_order_requires_eq [] [("x", .plain, .absentD)] [fldX] true none true false false (by rfl)

/-- C3: whenever processing succeeds, the installed hash behaviour is
exactly hashResolution applied to the policy (first conjunct), and that
resolution satisfies the full matrix: hash explicitly False installs
nothing (the inherited hash remains); hash explicitly True synthesizes a
hash over the hash-included fields regardless of eq and frozen; with hash
unset, no eq leaves the inherited hash, eq without (requested) frozen
marks the type unhashable, and eq with frozen synthesizes the hash. -/
theorem c3_hash_mode_matrix (anc : List (List (String × FieldD)))
    (ownDecls : List (String × Ann × ClassDefault))
    (repr eq ord : Bool) (hashOpt : Option Bool) (init frozen ancestorFrozen : Bool)
    (pc : ProcessedClass)
    (h : processClass anc ownDecls repr eq ord hashOpt init frozen ancestorFrozen = .ok pc) :
    pc.hashAction = hashResolution hashOpt eq frozen (fieldListOf pc.marker)
    ∧ (hashOpt = some false → pc.hashAction = .inheritHash)
    ∧ (hashOpt = some true →
        pc.hashAction = .synthesized (hashNames (fieldListOf pc.marker)))
    ∧ (hashOpt = none → eq = false → pc.hashAction = .inheritHash)
    ∧ (hashOpt = none → eq = true → frozen = false → pc.hashAction = .unhashable)
    ∧ (hashOpt = none → eq = true → frozen = true →
        pc.hashAction = .synthesized (hashNames (fieldListOf pc.marker))) := by
  have hpc : pc.hashAction = hashResolution hashOpt eq frozen (fieldListOf pc.marker) := by
    simp only [processClass] at h
    cases hfind : findFields ownDecls with
    | error e => rw [hfind] at h; exact absurd h (by simp)
    | ok ownFields =>
      rw [hfind] at h
      by_cases hoe : (ord && !eq) = true
      · simp [hoe] at h
      · simp only [hoe, Bool.false_eq_true, if_false] at h
        cases hscan : (if init then orderCheckAux false (initFieldsOf (markerOf anc ownFields))
            else none) with
        | some n => rw [hscan] at h; exact absurd h (by simp)
        | none =>
          rw [hscan] at h
          simp only [Except.ok.injEq] at h
          rw [← h]
  refine ⟨hpc, ?_, ?_, ?_, ?_, ?_⟩
  · intro h1; rw [hpc, h1]; simp [hashResolution]
  · intro h1; rw [hpc, h1]; simp [hashResolution]
  · intro h1 h2; rw [hpc, h1, h2]; simp [hashResolution]
  · intro h1 h2 h3; rw [hpc, h1, h2, h3]; simp [hashResolution]
  · intro h1 h2 h3; rw [hpc, h1, h2, h3]; simp [hashResolution]

/-- C3 witness: the matrix link applied to a processed one-field class
under the default policy (hash unset, eq requested, frozen false), whose
resolved action is the unhashable marker. -/
theorem c3_hash_mode_matrix_witness :
    ProcessedClass.hashAction
        ⟨[fldX], false, true, [fldX], some ["x"], .unhashable, some ["x"], none⟩
      = hashResolution none true false
          (fieldListOf (ProcessedClass.marker
            ⟨[fldX], false, true, [fldX], some ["x"], .unhashable, some ["x"], none⟩)) :=
  (c3_hash_mode_matrix [] [("x", .plain, .absentD)] true true false none true false false
    ⟨[fldX], false, true, [fldX], some ["x"], .unhashable, some ["x"], none⟩ (by rfl)).1

/-- C8 (counterexample): under the DEFAULT policy (hash unset, eq
requested, frozen false) the scenario class gets __hash__ = None — the
type is explicitly unhashable, so hash(instance) raises a TypeError
instead of equalling the hash of the tuple (3, 0) as the claim states. -/
theorem c8_counterexample_unhashable :
    processClass [] c8Decls true true false none true false false
      = .ok ⟨c8Marker, false, true, c8Marker, some ["x", "y"], .unhashable, some ["x", "y"], none⟩
    ∧ hashInstance .unhashable c8Attrs (fun _ => 0) 0 = .error .unhashableType
    ∧ hashInstance .unhashable c8Attrs (fun _ => 0) 0
        ≠ .ok ((fun _ => (0 : Int)) [PyValue.vInt 3, PyValue.vInt 0]) := by
  refine ⟨by rfl, by rfl, ?_⟩
  intro h
  simp [hashInstance] at h

/-- C8 (amended): constructing the scenario class with the single
positional argument 3 yields field values (3, 0); its representation is
"C(x=3, y=0)"; under the default policy the type is marked unhashable
(hashing raises); and when hash synthesis is requested (hash=True), the
synthesized hash is the built-in hash applied to the tuple (3, 0). -/
theorem c8_concrete_scenario :
    processClass [] c8Decls true true false none true false false
      = .ok ⟨c8Marker, false, true, c8Marker, some ["x", "y"], .unhashable, some ["x", "y"], none⟩
    ∧ runInit c8Marker false none [.vInt 3] = .ok c8Attrs
    ∧ reprRender "C" ["x", "y"] c8Attrs = "C(x=3, y=0)"
    ∧ processClass [] c8Decls true true false (some true) true false false
      = .ok ⟨c8Marker, false, true, c8Marker, some ["x", "y"],
             .synthesized ["x", "y"], some ["x", "y"], none⟩
    ∧ ∀ (h : List PyValue → Int) (ih : Int),
        hashInstance (.synthesized ["x", "y"]) c8Attrs h ih = .ok (h [.vInt 3, .vInt 0]) := by
  refine ⟨by rfl, by rfl, by decide, by rfl, ?_⟩
  intro h ih
  rfl

/-- C6: a plain list default, a spec-carried dict default and a set
default are each rejected at declaration time as mutable defaults
(conjuncts 1-3); the same field declared with a list default factory is
accepted, both by _get_field and by whole-class processing (conjuncts
4-5); and because the generated __init__ invokes the factory once per
constructed instance, two no-argument constructions receive distinct
container identities (conjunct 6), and mutating the first instance's
container leaves the second's contents untouched while changing the
first's (conjunct 7). -/
theorem c6_mutable_default_policy :
    getField "x" .plain (.plainD (.vList .nil)) = .error (.mutableDefault "x")
    ∧ getField "x" .plain (.specD ⟨some (.vDict .nil), none, true, true, none, true⟩)
        = .error (.mutableDefault "x")
    ∧ getField "x" .plain (.specD ⟨some (.vSet .nil), none, true, true, none, true⟩)
        = .error (.mutableDefault "x")
    ∧ getField "x" .plain (.specD ⟨none, some .mkList, true, true, none, true⟩)
        = .ok (mkFieldD "x" none (some .mkList) true true none true .tField)
    ∧ exceptIsOk (processClass []
        [("x", .plain, .specD ⟨none, some .mkList, true, true, none, true⟩)]
        true true false none true false false) = true
    ∧ (∀ ctr : Nat, (constructTwiceIds ctr).1 ≠ (constructTwiceIds ctr).2)
    ∧ (∀ (ctr : Nat) (v : PyValue),
        odLookup (heapAppend [(ctr, []), (ctr + 1, [])] ctr v) (ctr + 1) = some []
        ∧ odLookup (heapAppend [(ctr, []), (ctr + 1, [])] ctr v) ctr = some [v]) := by
  refine ⟨by rfl, by rfl, by rfl, by rfl, by rfl, ?_, ?_⟩
  · intro ctr
    simp only [constructTwiceIds, factoryFreshId]
    omega
  · intro ctr v
    have h1 : ¬(ctr + 1 = ctr) := by omega
    constructor
    · simp [heapAppend, odLookup, h1]
    · simp [heapAppend, odLookup, h1]

/-! ### Identity of asdict on record-free values (for C9) -/

mutual

theorem asdictInner_id : ∀ v : PyValue, recordFree v = true → asdictInner v = v
  | .vInt _, _ => rfl
  | .vStr _, _ => rfl
  | .vBool _, _ => rfl
  | .vNone, _ => rfl
  | .vList xs, h => by
    simp only [asdictInner, recordFree] at *
    exact congrArg PyValue.vList (asdictList_id xs h)
  | .vTuple xs, h => by
    simp only [asdictInner, recordFree] at *
    exact congrArg PyValue.vTuple (asdictList_id xs h)
  | .vDict es, h => by
    simp only [asdictInner, recordFree] at *
    exact congrArg PyValue.vDict (asdictPairs_id es h)
  | .vSet _, _ => rfl

theorem asdictList_id : ∀ xs : PyList, recordFreeL xs = true → asdictList xs = xs
  | .nil, _ => rfl
  | .cons v rest, h => by
    simp only [recordFreeL, Bool.and_eq_true] at h
    simp only [asdictList]
    exact congrArg₂ PyList.cons (asdictInner_id v h.1) (asdictList_id rest h.2)

theorem asdictPairs_id : ∀ es : PyPairs, recordFreeP es = true → asdictPairs es = es
  | .nil, _ => rfl
  | .cons k v rest, h => by
    simp only [recordFreeP, Bool.and_eq_true] at h
    simp only [asdictPairs]
    rw [asdictInner_id k h.1.1, asdictInner_id v h.1.2, asdictPairs_id rest h.2]

end

theorem zipAttrs_asdictAttrs :
    ∀ attrs : PyAttrs, recordFreeA attrs = true →
      zipAttrs (attrNames attrs) (pairsValues (asdictAttrs attrs)) = attrs
  | .nil, _ => rfl
  | .cons n v rest, h => by
    simp only [recordFreeA, Bool.and_eq_true] at h
    simp only [attrNames, asdictAttrs, pairsValues, zipAttrs]
    rw [asdictInner_id v h.1, zipAttrs_asdictAttrs rest h.2]

/-- C9 (counterexample): for a record instance holding another record
instance in a field, asdict converts the nested record into a plain dict,
so rebuilding the outer record from the mapping's values stores a dict
where the original stored a record — the reconstructed instance is NOT
equal to the original. -/
theorem c9_counterexample_nested :
    asdict outerRec
      = .ok (.vDict (.cons (.vStr "a") (.vDict (.cons (.vStr "x") (.vInt 1) .nil)) .nil))
    ∧ reconstructFromDict "Outer" ["a"] (asdictInner outerRec)
        = some (.vRecord "Outer" (.cons "a" (.vDict (.cons (.vStr "x") (.vInt 1) .nil)) .nil))
    ∧ reconstructFromDict "Outer" ["a"] (asdictInner outerRec) ≠ some outerRec := by
  refine ⟨by rfl, by rfl, by decide⟩

/-- C9 (amended): for an instance whose field values contain no nested
record instance (fields all init-participating and compare-participating,
as modelled), converting it to a plain mapping and rebuilding an instance
of the same record type from the mapping's values in field order yields
an instance equal to the original. -/
theorem c9_roundtrip (cls : String) (attrs : PyAttrs) (h : recordFreeA attrs = true) :
    reconstructFromDict cls (attrNames attrs) (asdictInner (.vRecord cls attrs))
      = some (.vRecord cls attrs) := by
  simp only [asdictInner, reconstructFromDict]
  rw [zipAttrs_asdictAttrs attrs h]

/-- C9 witness: the round trip on a concrete flat record with two integer
fields. -/
theorem c9_roundtrip_witness :
    reconstructFromDict "C" (attrNames (.cons "x" (.vInt 3) (.cons "y" (.vInt 0) .nil)))
        (asdictInner (.vRecord "C" (.cons "x" (.vInt 3) (.cons "y" (.vInt 0) .nil))))
      = some (.vRecord "C" (.cons "x" (.vInt 3) (.cons "y" (.vInt 0) .nil))) :=
  c9_roundtrip "C" (.cons "x" (.vInt 3) (.cons "y" (.vInt 0) .nil)) (by decide)

theorem list_map_eq_iff {α β : Type} (l : List α) (f g : α → β) :
    l.map f = l.map g ↔ ∀ x ∈ l, f x = g x := by
  induction l with
  | nil => simp
  | cons a l ih =>
    simp only [List.map_cons, List.cons.injEq, List.mem_cons, ih]
    constructor
    · rintro ⟨h1, h2⟩ x hx
      rcases hx with hx | hx
      · rw [hx]; exact h1
      · exact h2 x hx
    · intro h
      exact ⟨h a (Or.inl rfl), fun x hx => h x (Or.inr hx)⟩

/-- C4 (counterexample): with a per-field override putting a field into
the hash but not into comparison (hash=True, compare=False), the engine
synthesizes eq over field a only and hash over fields a and b; instances
p = (a=0, b=0) and q = (a=0, b=1) are equal under the synthesized
equality, yet their hash tuples differ, and a hash function evaluated on
those tuples distinguishes them — equal hashes are NOT guaranteed for
every per-field override, contradicting the claim. -/
theorem c4_counterexample_hash_override :
    processClass [] c4Decls true true false (some true) true false false
      = .ok ⟨[c4FldA, c4FldB], false, true, [c4FldA, c4FldB], some ["a", "b"],
             .synthesized ["a", "b"], some ["a"], none⟩
    ∧ synthEq ["a"] c4P c4Q = true
    ∧ fieldTuple ["a", "b"] c4P ≠ fieldTuple ["a", "b"] c4Q
    ∧ hashInstance (.synthesized ["a", "b"]) c4P
          (fun l => if l = [PyValue.vInt 0, PyValue.vInt 0] then 0 else 1) 0
        ≠ hashInstance (.synthesized ["a", "b"]) c4Q
          (fun l => if l = [PyValue.vInt 0, PyValue.vInt 0] then 0 else 1) 0 := by
  refine ⟨by rfl, by rfl, by decide, ?_⟩
  intro h
  simp only [hashInstance, Except.ok.injEq] at h
  exact absurd h (by decide)

/-- C4 (amended): provided no field of the table is hash-included while
compare-excluded (so the hash-included fields are a subset of the
compare-included ones — which holds in particular whenever
participates_in_hash is left unset), two instances equal under the
synthesized equality have equal hash tuples, hence equal hashes for every
hash function; and a field whose hash flag is unset is hash-included
exactly when its compare flag is set. -/
theorem c4_eq_hash_consistency (fl : List FieldD) (a b : Attrs)
    (hsub : ∀ f ∈ fl, hashIncluded f = true → f.compare = true)
    (heq : synthEq (compareNames fl) a b = true) :
    fieldTuple (hashNames fl) a = fieldTuple (hashNames fl) b
    ∧ (∀ h : List PyValue → Int,
        h (fieldTuple (hashNames fl) a) = h (fieldTuple (hashNames fl) b))
    ∧ (∀ f : FieldD, f.hash = none → hashIncluded f = f.compare) := by
  have hbeq : fieldTuple (compareNames fl) a = fieldTuple (compareNames fl) b := by
    simpa only [synthEq, beq_iff_eq] using heq
  have hpt : ∀ fd ∈ fl.filter FieldD.compare,
      (odLookup a fd.name).getD PyValue.vNone = (odLookup b fd.name).getD PyValue.vNone := by
    apply (list_map_eq_iff (fl.filter FieldD.compare)
      (fun fd => (odLookup a fd.name).getD PyValue.vNone)
      (fun fd => (odLookup b fd.name).getD PyValue.vNone)).mp
    simpa only [fieldTuple, compareNames, List.map_map, Function.comp] using hbeq
  have hmain : fieldTuple (hashNames fl) a = fieldTuple (hashNames fl) b := by
    simp only [fieldTuple, hashNames, List.map_map, Function.comp]
    apply (list_map_eq_iff _ _ _).mpr
    intro fd hfd
    have hmemf := List.mem_filter.mp hfd
    have hcmp : FieldD.compare fd = true := hsub fd hmemf.1 hmemf.2
    exact hpt fd (List.mem_filter.mpr ⟨hmemf.1, hcmp⟩)
  refine ⟨hmain, fun h => by rw [hmain], fun f hf => by simp [hashIncluded, hf]⟩

/-- C4 witness: the amended consistency applied to a one-field table with
default flags and a pair of identical instances. -/
theorem c4_eq_hash_consistency_witness :
    fieldTuple (hashNames [fldX]) [("x", PyValue.vInt 1)]
      = fieldTuple (hashNames [fldX]) [("x", PyValue.vInt 1)] :=
  (c4_eq_hash_consistency [fldX] [("x", .vInt 1)] [("x", .vInt 1)]
    (by decide) (by decide)).1

/-! ### Lemmas about the synthesized constructor (for C5) -/

theorem bindParams_names :
    ∀ (fs : List FieldD) (args : List PyValue) (bound : List (String × Bound)),
      bindParams fs args = .ok bound → bound.map Prod.fst = fs.map FieldD.name
  | [], [], bound => by
    intro h
    simp only [bindParams, Except.ok.injEq] at h
    rw [← h]
    rfl
  | [], _ :: _, bound => by
    intro h
    simp [bindParams] at h
  | f :: fs, [], bound => by
    intro h
    simp only [bindParams] at h
    cases hd : f.default with
    | some v =>
      rw [hd] at h
      cases hrec : bindParams fs [] with
      | error e => rw [hrec] at h; simp [Except.map] at h
      | ok r =>
        rw [hrec] at h
        simp only [Except.map, Except.ok.injEq] at h
        rw [← h, List.map_cons, List.map_cons, bindParams_names fs [] r hrec]
    | none =>
      rw [hd] at h
      cases hdf : f.default_factory with
      | some fac =>
        rw [hdf] at h
        cases hrec : bindParams fs [] with
        | error e => rw [hrec] at h; simp [Except.map] at h
        | ok r =>
          rw [hrec] at h
          simp only [Except.map, Except.ok.injEq] at h
          rw [← h, List.map_cons, List.map_cons, bindParams_names fs [] r hrec]
      | none =>
        rw [hdf] at h
        simp at h
  | f :: fs, a :: rest, bound => by
    intro h
    simp only [bindParams] at h
    cases hrec : bindParams fs rest with
    | error e => rw [hrec] at h; simp [Except.map] at h
    | ok r =>
      rw [hrec] at h
      simp only [Except.map, Except.ok.injEq] at h
      rw [← h, List.map_cons, List.map_cons, bindParams_names fs rest r hrec]

theorem bindParams_factory_marker :
    ∀ (fs : List FieldD) (args : List PyValue) (bound : List (String × Bound)) (n : String),
      bindParams fs args = .ok bound → (n, Bound.hasDefaultFactory) ∈ bound →
      ∃ f, f ∈ fs ∧ f.name = n ∧ f.default_factory.isSome = true
  | [], [], bound, n => by
    intro h hm
    simp only [bindParams, Except.ok.injEq] at h
    rw [← h] at hm
    simp at hm
  | [], _ :: _, bound, n => by
    intro h hm
    simp [bindParams] at h
  | f :: fs, [], bound, n => by
    intro h hm
    simp only [bindParams] at h
    cases hd : f.default with
    | some v =>
      rw [hd] at h
      cases hrec : bindParams fs [] with
      | error e => rw [hrec] at h; simp [Except.map] at h
      | ok r =>
        rw [hrec] at h
        simp only [Except.map, Except.ok.injEq] at h
        rw [← h] at hm
        rcases List.mem_cons.mp hm with hm | hm
        · exact absurd hm (by simp)
        · obtain ⟨g, hg1, hg2, hg3⟩ := bindParams_factory_marker fs [] r n hrec hm
          exact ⟨g, List.mem_cons_of_mem f hg1, hg2, hg3⟩
    | none =>
      rw [hd] at h
      cases hdf : f.default_factory with
      | some fac =>
        rw [hdf] at h
        cases hrec : bindParams fs [] with
        | error e => rw [hrec] at h; simp [Except.map] at h
        | ok r =>
          rw [hrec] at h
          simp only [Except.map, Except.ok.injEq] at h
          rw [← h] at hm
          rcases List.mem_cons.mp hm with hm | hm
          · refine ⟨f, List.mem_cons_self f fs, ?_, ?_⟩
            · have := congrArg Prod.fst hm
              exact this.symm
            · rw [hdf]; rfl
          · obtain ⟨g, hg1, hg2, hg3⟩ := bindParams_factory_marker fs [] r n hrec hm
            exact ⟨g, List.mem_cons_of_mem f hg1, hg2, hg3⟩
      | none =>
        rw [hdf] at h
        simp at h
  | f :: fs, a :: rest, bound, n => by
    intro h hm
    simp only [bindParams] at h
    cases hrec : bindParams fs rest with
    | error e => rw [hrec] at h; simp [Except.map] at h
    | ok r =>
      rw [hrec] at h
      simp only [Except.map, Except.ok.injEq] at h
      rw [← h] at hm
      rcases List.mem_cons.mp hm with hm | hm
      · exact absurd hm (by simp)
      · obtain ⟨g, hg1, hg2, hg3⟩ := bindParams_factory_marker fs rest r n hrec hm
        exact ⟨g, List.mem_cons_of_mem f hg1, hg2, hg3⟩

theorem odLookup_isSome_of_mem_keys {κ α : Type} [DecidableEq κ]
    (t : List (κ × α)) (k : κ) (h : k ∈ odKeys t) : ∃ v, odLookup t k = some v := by
  induction t with
  | nil => simp [odKeys] at h
  | cons p ps ih =>
    by_cases hp : p.1 = k
    · exact ⟨p.2, by simp [odLookup, hp]⟩
    · have : k ∈ odKeys ps := by
        unfold odKeys at h ⊢
        simp only [List.map_cons, List.mem_cons] at h
        rcases h with h | h
        · exact absurd h.symm hp
        · exact h
      obtain ⟨v, hv⟩ := ih this
      exact ⟨v, by simp [odLookup, hp, hv]⟩

theorem odLookup_mem {κ α : Type} [DecidableEq κ]
    (t : List (κ × α)) (k : κ) (v : α) (h : odLookup t k = some v) : (k, v) ∈ t := by
  induction t with
  | nil => simp [odLookup] at h
  | cons p ps ih =>
    by_cases hp : p.1 = k
    · simp only [odLookup, hp, if_true, Option.some.injEq] at h
      have : p = (k, v) := by
        cases p
        simp only [Prod.mk.injEq]
        exact ⟨hp, h⟩
      rw [← this]
      exact List.mem_cons_self p ps
    · simp only [odLookup, hp, if_false] at h
      exact List.mem_cons_of_mem p (ih h)

theorem odInsert_not_mem {κ α : Type} [DecidableEq κ]
    (t : List (κ × α)) (k : κ) (v : α) (h : k ∉ odKeys t) :
    odInsert t k v = t ++ [(k, v)] := by
  induction t with
  | nil => rfl
  | cons p ps ih =>
    have hp : ¬p.1 = k := by
      intro hk
      exact h (by unfold odKeys; simp only [List.map_cons, List.mem_cons]; exact Or.inl hk.symm)
    have hps : k ∉ odKeys ps := by
      intro hk
      exact h (by unfold odKeys at hk ⊢; simp only [List.map_cons, List.mem_cons]; exact Or.inr hk)
    simp [odInsert, hp, ih hps]

theorem runBody_frozen_ok (bound : List (String × Bound)) :
    ∀ (fs : List FieldD) (acc : Attrs),
      (∀ f ∈ fs, f.fieldType = FieldType.tField ∧ f.init = true) →
      (∀ f ∈ fs, ∃ b, odLookup bound f.name = some b ∧
        (f.default_factory = none → ∃ v, b = Bound.bval v)) →
      runBody true bound fs acc
        = .ok (fs.foldl (fun a f =>
            odInsert a f.name
              (resolvedOf f ((odLookup bound f.name).getD (Bound.bval .vNone)))) acc)
  | [], acc, _, _ => by simp [runBody]
  | f :: fs, acc, hf, hb => by
    obtain ⟨hft, hinit⟩ := hf f (List.mem_cons_self f fs)
    obtain ⟨b, hbl, hbv⟩ := hb f (List.mem_cons_self f fs)
    have hftne : (f.fieldType == FieldType.tInitVar) = false := by
      rw [hft]
      rfl
    have htail1 : ∀ g ∈ fs, g.fieldType = FieldType.tField ∧ g.init = true :=
      fun g hg => hf g (List.mem_cons_of_mem f hg)
    have htail2 : ∀ g ∈ fs, ∃ b, odLookup bound g.name = some b ∧
        (g.default_factory = none → ∃ v, b = Bound.bval v) :=
      fun g hg => hb g (List.mem_cons_of_mem f hg)
    have ihr := runBody_frozen_ok bound fs
      (odInsert acc f.name (resolvedOf f ((odLookup bound f.name).getD (Bound.bval .vNone))))
      htail1 htail2
    cases hdf : f.default_factory with
    | some fac =>
      cases b with
      | bval v =>
        have hres : resolvedOf f ((odLookup bound f.name).getD (Bound.bval .vNone)) = v := by
          rw [hbl]
          rfl
        rw [List.foldl_cons, hres]
        rw [hres] at ihr
        rw [← ihr]
        simp [runBody, hdf, hinit, hbl, hftne, fieldAssign, objectSetattr]
      | hasDefaultFactory =>
        have hres : resolvedOf f ((odLookup bound f.name).getD (Bound.bval .vNone))
            = runFactory fac := by
          rw [hbl]
          simp [resolvedOf, hdf]
        rw [List.foldl_cons, hres]
        rw [hres] at ihr
        rw [← ihr]
        simp [runBody, hdf, hinit, hbl, hftne, fieldAssign, objectSetattr]
    | none =>
      obtain ⟨v, hbv2⟩ := hbv hdf
      subst hbv2
      have hres : resolvedOf f ((odLookup bound f.name).getD (Bound.bval .vNone)) = v := by
        rw [hbl]
        rfl
      rw [List.foldl_cons, hres]
      rw [hres] at ihr
      rw [← ihr]
      simp [runBody, hdf, hinit, hbl, hftne, fieldAssign, objectSetattr]

theorem foldl_odInsert_fresh :
    ∀ (fs : List FieldD) (g : FieldD → PyValue) (acc : Attrs),
      (∀ f ∈ fs, f.name ∉ odKeys acc) → (fs.map FieldD.name).Nodup →
      fs.foldl (fun a f => odInsert a f.name (g f)) acc
        = acc ++ fs.map fun f => (f.name, g f)
  | [], _, acc, _, _ => by simp
  | f :: fs, g, acc, hfresh, hnd => by
    have hf1 : f.name ∉ odKeys acc := hfresh f (List.mem_cons_self f fs)
    have hnd2 : (fs.map FieldD.name).Nodup := by
      simp only [List.map_cons, List.nodup_cons] at hnd
      exact hnd.2
    have hne : ∀ gf ∈ fs, gf.name ≠ f.name := by
      intro gf hg hn
      simp only [List.map_cons, List.nodup_cons] at hnd
      exact hnd.1 (hn ▸ List.mem_map_of_mem FieldD.name hg)
    have hfresh2 : ∀ gf ∈ fs, gf.name ∉ odKeys (acc ++ [(f.name, g f)]) := by
      intro gf hg
      unfold odKeys
      rw [List.map_append, List.mem_append]
      intro hk
      rcases hk with hk | hk
      · exact hfresh gf (List.mem_cons_of_mem f hg) hk
      · simp only [List.map_cons, List.map_nil, List.mem_singleton] at hk
        exact hne gf hg hk
    rw [List.foldl_cons, odInsert_not_mem acc f.name (g f) hf1,
      foldl_odInsert_fresh fs g (acc ++ [(f.name, g f)]) hfresh2 hnd2,
      List.map_cons, List.append_assoc]
    rfl

theorem odLookup_map_self :
    ∀ (fs : List FieldD) (g : FieldD → PyValue),
      (fs.map FieldD.name).Nodup → ∀ f ∈ fs,
      odLookup (fs.map fun f' => (f'.name, g f')) f.name = some (g f)
  | [], _, _, f => by intro h; simp at h
  | f0 :: fs, g, hnd, f => by
    intro hmem
    rcases List.mem_cons.mp hmem with hmem | hmem
    · subst hmem
      simp [odLookup]
    · have hne : ¬f0.name = f.name := by
        intro hn
        simp only [List.map_cons, List.nodup_cons] at hnd
        exact hnd.1 (hn ▸ List.mem_map_of_mem FieldD.name hmem)
      have hnd2 : (fs.map FieldD.name).Nodup := by
        simp only [List.map_cons, List.nodup_cons] at hnd
        exact hnd.2
      simp only [List.map_cons, odLookup, hne, if_false]
      exact odLookup_map_self fs g hnd2 f hmem

theorem filter_init_eq_self :
    ∀ fs : List FieldD, (∀ f ∈ fs, f.init = true) → fs.filter FieldD.init = fs
  | [], _ => rfl
  | f :: fs, h => by
    have h1 : FieldD.init f = true := h f (List.mem_cons_self f fs)
    simp only [List.filter_cons, h1, if_true]
    rw [filter_init_eq_self fs fun g hg => h g (List.mem_cons_of_mem f hg)]

/-- C5 (counterexample): a post-construction hook does NOT get the
privileged low-level store. Processing the frozen class installs the
interceptors (first conjunct: isFrozen = true), and a construction whose
__post_init__ hook performs an attribute assignment fails with the
immutability error — the hook's write goes through the interceptor,
contradicting the claim that the hook bypasses it. -/
theorem c5_counterexample_hook_not_privileged :
    processClass [] c5Decls true true false none true true false
      = .ok ⟨[fldX], true, true, [fldX], some ["x"], .synthesized ["x"], some ["x"], none⟩
    ∧ runInit [fldX] true (some [("x", .vInt 5)]) [.vInt 0] = .error (.frozenSetattr "x") := by
  constructor
  · rfl
  · rfl

/-- C5 (amended): for a frozen record type (real, init-participating
fields with distinct names, binding succeeding), construction succeeds
and stores, for every field, exactly the value bound for it — the
supplied argument, the default, or the computed factory default
(conjuncts 1-2, the constructor writing through the privileged store per
conjunct 5); every subsequent attribute assignment or deletion raises the
immutability error and produces no modified instance (conjuncts 3-4); a
post-construction hook's own writes are NOT privileged (see the
counterexample). -/
theorem c5_frozen_semantics (fs : List FieldD) (args : List PyValue)
    (bound : List (String × Bound))
    (hf : ∀ f ∈ fs, f.fieldType = FieldType.tField ∧ f.init = true)
    (hnd : (fs.map FieldD.name).Nodup)
    (hb : bindParams fs args = .ok bound) :
    runInit fs true none args
      = .ok (fs.map fun f =>
          (f.name, resolvedOf f ((odLookup bound f.name).getD (Bound.bval .vNone))))
    ∧ (∀ f ∈ fs,
        odLookup (fs.map fun f' =>
            (f'.name, resolvedOf f' ((odLookup bound f'.name).getD (Bound.bval .vNone)))) f.name
          = some (resolvedOf f ((odLookup bound f.name).getD (Bound.bval .vNone))))
    ∧ (∀ (a : Attrs) (n : String) (v : PyValue), instSetattr true a n v = .error (.frozenSetattr n))
    ∧ (∀ (a : Attrs) (n : String), instDelattr true a n = .error (.frozenDelattr n))
    ∧ (∀ (a : Attrs) (n : String) (v : PyValue), fieldAssign true a n v = .ok (objectSetattr a n v)) := by
  have hnames : bound.map Prod.fst = fs.map FieldD.name := bindParams_names fs args bound hb
  have hbfacts : ∀ f ∈ fs, ∃ b, odLookup bound f.name = some b ∧
      (f.default_factory = none → ∃ v, b = Bound.bval v) := by
    intro f hmem
    have hk : f.name ∈ odKeys bound := by
      unfold odKeys
      rw [hnames]
      exact List.mem_map_of_mem FieldD.name hmem
    obtain ⟨b, hbv⟩ := odLookup_isSome_of_mem_keys bound f.name hk
    refine ⟨b, hbv, ?_⟩
    intro hdf
    cases b with
    | bval v => exact ⟨v, rfl⟩
    | hasDefaultFactory =>
      have hmemb : (f.name, Bound.hasDefaultFactory) ∈ bound := odLookup_mem bound f.name _ hbv
      obtain ⟨g, hg1, hg2, hg3⟩ := bindParams_factory_marker fs args bound f.name hb hmemb
      have hgf : g = f := by
        apply List.inj_on_of_nodup_map hnd hg1 hmem
        rw [hg2]
      rw [hgf, hdf] at hg3
      simp at hg3
  have hrun : runInit fs true none args
      = .ok (fs.map fun f =>
          (f.name, resolvedOf f ((odLookup bound f.name).getD (Bound.bval .vNone)))) := by
    have hfilter := filter_init_eq_self fs fun f hmem => (hf f hmem).2
    have hrb := runBody_frozen_ok bound fs [] hf hbfacts
    have hfold := foldl_odInsert_fresh fs
      (fun f => resolvedOf f ((odLookup bound f.name).getD (Bound.bval .vNone))) []
      (by intro f hmem; simp [odKeys]) hnd
    simp only [runInit, hfilter, hb, hrb, hfold, List.nil_append]
  refine ⟨hrun, ?_, fun a n v => rfl, fun a n => rfl, fun a n v => rfl⟩
  intro f hmem
  exact odLookup_map_self fs
    (fun f' => resolvedOf f' ((odLookup bound f'.name).getD (Bound.bval .vNone))) hnd f hmem

/-- C5 witness: the amended frozen semantics on the two-field class
x: int, y: int = 0 constructed with the single argument 7 (x bound to the
argument, y to its default). -/
theorem c5_frozen_semantics_witness :
    runInit [fldX, fldY0] true none [.vInt 7]
      = .ok ([fldX, fldY0].map fun f =>
          (f.name, resolvedOf f
            ((odLookup [("x", Bound.bval (.vInt 7)), ("y", Bound.bval (.vInt 0))] f.name).getD
              (Bound.bval .vNone)))) :=
  (c5_frozen_semantics [fldX, fldY0] [.vInt 7]
    [("x", Bound.bval (.vInt 7)), ("y", Bound.bval (.vInt 0))]
    (by decide) (by decide) (by rfl)).1

end Dataclasses
